import Mathlib

/-!
# Verification of the financeGraph event-study return analysis engine

Shallow embedding of the analytical core of `app/components/insider_analysis.py`
and `app/components/sentiment_analysis.py`.

Conventions of the embedding:
* Dates are modelled as integers (day numbers); `pandas` timestamps in the data
  pipeline are day-granular, and all date arithmetic in the source is in whole
  days (`timedelta(days=...)`, `.days`).
* Finite floating-point values are modelled as exact rationals.  Where the
  source can produce a non-finite IEEE value (division by a zero price under
  numpy semantics: `x/0.0` is `±Inf`, `0.0/0.0` is `NaN`, no exception), the
  value domain is the inductive `FVal` which makes those outcomes explicit.
* A pandas cell that is `NaN`-as-missing is modelled as `Option.none`.
* External library calls whose numerics are not part of this repository
  (`scipy.stats.ttest_ind`, `Series.corr`, `to_datetime`, `to_period`) are
  taken as parameters of the embedded functions; the embedding records exactly
  which data the source passes to them.
-/

namespace FinanceGraph

/-- Floating-point result values: exact rationals for the finite case, plus the
non-finite IEEE outcomes that numpy division can produce. -/
inductive FVal where
  | fin (q : ℚ)
  | inf
  | ninf
  | nan
deriving DecidableEq, Repr

/-- Loop body of
`min((d for d in stock_df['Date'] if d >= txn_date), key=lambda d: (d - txn_date).days, default=None)`
(insider_analysis.py lines 201-203 and 559-561): Python `min` keeps the first
element attaining the minimal key, so a later date replaces the accumulator only
when its key is strictly smaller. -/
def resolveOnOrAfterAux (txn : ℤ) : List ℤ → Option ℤ → Option ℤ
  | [], acc => acc
  | d :: ds, acc =>
    if txn ≤ d then
      match acc with
      | none => resolveOnOrAfterAux txn ds (some d)
      | some b => resolveOnOrAfterAux txn ds (if d - txn < b - txn then some d else some b)
    else resolveOnOrAfterAux txn ds acc

/-- Closest trading day on or after the transaction date (`closest_date` in the
source); `none` when no date in the series is `>= txn`. -/
def resolveOnOrAfter (dates : List ℤ) (txn : ℤ) : Option ℤ :=
  resolveOnOrAfterAux txn dates none

/-- The inner loop of `calculate_post_transaction_returns` (insider_analysis.py
lines 215-226): scan all stock dates keeping the candidate `>= target` with the
smallest delta, starting from the tolerance `future_delta = window + 10` days,
breaking out early on an exact match (`delta.days == 0`). -/
def findFutureDateLoop (target : ℤ) : List ℤ → Option ℤ → ℤ → Option ℤ × ℤ
  | [], fd, fdelta => (fd, fdelta)
  | d :: ds, fd, fdelta =>
    if target ≤ d then
      let delta := d - target
      if delta < fdelta then
        if delta = 0 then (some d, delta)
        else findFutureDateLoop target ds (some d) delta
      else findFutureDateLoop target ds fd fdelta
    else findFutureDateLoop target ds fd fdelta

/-- `future_date` for one window: the target day is `closest_date + window` days
and only candidates whose delta is strictly below `window + 10` days are ever
accepted (the initial value of `future_delta`). -/
def findFutureDate (dates : List ℤ) (closestDate : ℤ) (window : ℕ) : Option ℤ :=
  (findFutureDateLoop (closestDate + window) dates none ((window : ℤ) + 10)).1

/-- `price_by_date` lookup (insider_analysis.py lines 183-184): a dict built by
comprehension over the zipped columns, so a duplicated date keeps the last
close value. -/
def priceByDate (stock : List (ℤ × ℚ)) (d : ℤ) : Option ℚ :=
  stock.foldl (fun acc row => if row.1 = d then some row.2 else acc) none

/-- `(future_price - base_price) / base_price * 100` under numpy float64
semantics: with a zero base price the division yields `±Inf` (or `NaN` when the
numerator is also zero) and raises no exception; with a nonzero base price the
value is the exact rational. -/
def returnPct (basePrice futurePrice : ℚ) : FVal :=
  if basePrice = 0 then
    if futurePrice = 0 then FVal.nan
    else if 0 < futurePrice then FVal.inf
    else FVal.ninf
  else FVal.fin ((futurePrice - basePrice) / basePrice * 100)

/-- Per-event body of `calculate_post_transaction_returns` (insider_analysis.py
lines 195-232).  Every window column starts as missing (`np.nan`, line 180);
a cell becomes `some` only when a value is assigned at line 231.  When the
anchor does not resolve, or its date is missing from `price_by_date`, the row
is skipped (`continue`), leaving every window missing. -/
def postTransactionReturnsRow (stock : List (ℤ × ℚ)) (windows : List ℕ) (txnDate : ℤ) :
    List (Option FVal) :=
  match resolveOnOrAfter (stock.map Prod.fst) txnDate with
  | none => windows.map (fun _ => none)
  | some closest =>
    match priceByDate stock closest with
    | none => windows.map (fun _ => none)
    | some basePrice =>
      windows.map (fun w =>
        match findFutureDate (stock.map Prod.fst) closest w with
        | none => none
        | some fd =>
          match priceByDate stock fd with
          | none => none
          | some futurePrice => some (returnPct basePrice futurePrice))

/-- `calculate_post_transaction_returns` at the level of the whole event table:
one result row per transaction, independent across rows. -/
def calculatePostTransactionReturns (insiderDates : List ℤ) (stock : List (ℤ × ℚ))
    (windows : List ℕ) : List (List (Option FVal)) :=
  insiderDates.map (postTransactionReturnsRow stock windows)

theorem findFutureDateLoop_none (target : ℤ) : ∀ (ds : List ℤ) (fd : Option ℤ) (fdelta : ℤ),
    (findFutureDateLoop target ds fd fdelta).1 = none ↔
      fd = none ∧ ∀ d ∈ ds, target ≤ d → fdelta ≤ d - target := by
  intro ds
  induction ds with
  | nil =>
    intro fd fdelta
    simp [findFutureDateLoop]
  | cons d ds ih =>
    intro fd fdelta
    simp only [findFutureDateLoop]
    by_cases h1 : target ≤ d
    · simp only [h1, if_true]
      by_cases h2 : d - target < fdelta
      · simp only [h2, if_true]
        by_cases h3 : d - target = 0
        · simp only [h3, if_true]
          constructor
          · intro h; cases h
          · rintro ⟨-, hall⟩
            exact absurd (hall d (by simp) h1) (by omega)
        · simp only [h3, if_false, ih]
          constructor
          · rintro ⟨h, -⟩; cases h
          · rintro ⟨-, hall⟩
            exact absurd (hall d (by simp) h1) (by omega)
      · simp only [h2, if_false, ih]
        constructor
        · rintro ⟨hfd, hall⟩
          exact ⟨hfd, by
            intro x hx hxt
            rcases List.mem_cons.mp hx with rfl | hx
            · omega
            · exact hall x hx hxt⟩
        · rintro ⟨hfd, hall⟩
          exact ⟨hfd, fun x hx hxt => hall x (List.mem_cons_of_mem d hx) hxt⟩
    · simp only [h1, if_false, ih]
      constructor
      · rintro ⟨hfd, hall⟩
        exact ⟨hfd, by
          intro x hx hxt
          rcases List.mem_cons.mp hx with rfl | hx
          · omega
          · exact hall x hx hxt⟩
      · rintro ⟨hfd, hall⟩
        exact ⟨hfd, fun x hx hxt => hall x (List.mem_cons_of_mem d hx) hxt⟩

theorem findFutureDateLoop_some (target : ℤ) : ∀ (ds : List ℤ) (fd : Option ℤ) (fdelta : ℤ),
    (∀ b, fd = some b → target ≤ b ∧ b - target = fdelta) →
    ∀ r, (findFutureDateLoop target ds fd fdelta).1 = some r →
      (fd = some r ∨ (r ∈ ds ∧ r - target < fdelta)) ∧ target ≤ r ∧
      (∀ d ∈ ds, target ≤ d → r ≤ d) ∧ (∀ b, fd = some b → r ≤ b) := by
  intro ds
  induction ds with
  | nil =>
    intro fd fdelta hfd r hr
    simp only [findFutureDateLoop] at hr
    refine ⟨Or.inl hr, (hfd r hr).1, by simp, ?_⟩
    intro b hb; rw [hr] at hb; cases hb; omega
  | cons d ds ih =>
    intro fd fdelta hfd r hr
    simp only [findFutureDateLoop] at hr
    by_cases h1 : target ≤ d
    · simp only [h1, if_true] at hr
      by_cases h2 : d - target < fdelta
      · simp only [h2, if_true] at hr
        by_cases h3 : d - target = 0
        · simp only [h3, if_true] at hr
          cases hr
          refine ⟨Or.inr ⟨by simp, by omega⟩, h1, ?_, ?_⟩
          · intro x hx hxt; omega
          · intro b hb
            rcases hfd b hb with ⟨hb1, hb2⟩
            omega
        · simp only [h3, if_false] at hr
          have := ih (some d) (d - target) (by intro b hb; cases hb; exact ⟨h1, rfl⟩) r hr
          rcases this with ⟨hcase, hrt, hmin, hacc⟩
          have hrd : r ≤ d := hacc d rfl
          refine ⟨?_, hrt, ?_, ?_⟩
          · rcases hcase with h | ⟨hmem, hlt⟩
            · cases h
              exact Or.inr ⟨by simp, h2⟩
            · exact Or.inr ⟨List.mem_cons_of_mem d hmem, by omega⟩
          · intro x hx hxt
            rcases List.mem_cons.mp hx with rfl | hx
            · exact hrd
            · exact hmin x hx hxt
          · intro b hb
            rcases hfd b hb with ⟨hb1, hb2⟩
            omega
      · simp only [h2, if_false] at hr
        have := ih fd fdelta hfd r hr
        rcases this with ⟨hcase, hrt, hmin, hacc⟩
        refine ⟨?_, hrt, ?_, hacc⟩
        · rcases hcase with h | ⟨hmem, hlt⟩
          · exact Or.inl h
          · exact Or.inr ⟨List.mem_cons_of_mem d hmem, hlt⟩
        · intro x hx hxt
          rcases List.mem_cons.mp hx with rfl | hx
          · rcases hcase with h | ⟨hmem, hlt⟩
            · have := hacc r h
              rcases hfd r h with ⟨hb1, hb2⟩
              omega
            · omega
          · exact hmin x hx hxt
    · simp only [h1, if_false] at hr
      have := ih fd fdelta hfd r hr
      rcases this with ⟨hcase, hrt, hmin, hacc⟩
      refine ⟨?_, hrt, ?_, hacc⟩
      · rcases hcase with h | ⟨hmem, hlt⟩
        · exact Or.inl h
        · exact Or.inr ⟨List.mem_cons_of_mem d hmem, hlt⟩
      · intro x hx hxt
        rcases List.mem_cons.mp hx with rfl | hx
        · omega
        · exact hmin x hx hxt

/-- C3 counterexample: the claim says the target-day resolution returns the
earliest date `>= anchor + offset_days` whenever one exists, with no additional
tolerance cutoff.  With price-series dates `{0, 20}`, anchor `0` and window `1`,
the date `20` satisfies `20 >= 0 + 1`, yet the source's loop starts its best
delta at `window + 10 = 11` days and accepts only strictly smaller deltas, so
the candidate at delta `19` is rejected and the resolution yields `None`. -/
theorem findFutureDate_tolerance_counterexample :
    findFutureDate [0, 20] 0 1 = none ∧ (20 : ℤ) ∈ [(0 : ℤ), 20] ∧ (0 : ℤ) + 1 ≤ 20 := by
  decide

/-- C3 (amended): the target-day resolution returns the earliest date in the
series that is `>= anchor + offset_days` **among candidates whose distance from
the target is strictly less than `offset_days + 10` days** (the `future_delta`
tolerance in the source), and `None` exactly when no candidate lies within that
tolerance.  When it returns a date, that date is a candidate inside the
tolerance and is `<=` every date in the series that is `>=` the target. -/
theorem findFutureDate_resolution_spec (dates : List ℤ) (anchor : ℤ) (w : ℕ) :
    (findFutureDate dates anchor w = none ↔
      ∀ d ∈ dates, anchor + w ≤ d → (w : ℤ) + 10 ≤ d - (anchor + w)) ∧
    (∀ r, findFutureDate dates anchor w = some r →
      r ∈ dates ∧ anchor + w ≤ r ∧ r - (anchor + w) < (w : ℤ) + 10 ∧
      ∀ d ∈ dates, anchor + w ≤ d → r ≤ d) := by
  constructor
  · rw [findFutureDate, findFutureDateLoop_none]
    simp
  · intro r hr
    have := findFutureDateLoop_some (anchor + w) dates none ((w : ℤ) + 10)
      (by intro b hb; cases hb) r hr
    rcases this with ⟨hcase, hrt, hmin, -⟩
    rcases hcase with h | ⟨hmem, hlt⟩
    · cases h
    · exact ⟨hmem, hrt, hlt, hmin⟩

/-- C3 witness: on the concrete series `{0, 3}` with anchor `0` and window `1`
the resolution returns `3`, which is in the series, is `>=` the target `1`,
lies within the tolerance, and is minimal among qualifying dates. -/
theorem findFutureDate_resolution_spec_witness :
    (3 : ℤ) ∈ [(0 : ℤ), 3] ∧ (0 : ℤ) + (1 : ℕ) ≤ 3 ∧
      (3 : ℤ) - (0 + (1 : ℕ)) < ((1 : ℕ) : ℤ) + 10 ∧
      ∀ d ∈ [(0 : ℤ), 3], (0 : ℤ) + (1 : ℕ) ≤ d → (3 : ℤ) ≤ d :=
  (findFutureDate_resolution_spec [0, 3] 0 1).2 3 (by decide)

/-- C7: for an event whose timestamp resolves to no anchor trading day (no
price-series date `>=` the event timestamp), every horizon's return cell for
that event stays missing — the source skips the row (`continue`) after its
columns were initialised to `np.nan`, so nothing is ever written. -/
theorem no_anchor_all_horizons_none (stock : List (ℤ × ℚ)) (windows : List ℕ) (txnDate : ℤ)
    (h : resolveOnOrAfter (stock.map Prod.fst) txnDate = none) :
    postTransactionReturnsRow stock windows txnDate = windows.map (fun _ => none) := by
  rw [postTransactionReturnsRow, h]

/-- C7 witness: a price series ending at day `0` and an event at day `1` (an
event past the data range): no anchor resolves, and both horizon cells of the
event are missing. -/
theorem no_anchor_all_horizons_none_witness :
    postTransactionReturnsRow [((0 : ℤ), (5 : ℚ))] [1, 5] 1 = [none, none] := by
  have h : resolveOnOrAfter ([((0 : ℤ), (5 : ℚ))].map Prod.fst) 1 = none := by decide
  rw [no_anchor_all_horizons_none [((0 : ℤ), (5 : ℚ))] [1, 5] 1 h]
  rfl

/-- C2 counterexample: the claim says a zero close price on the anchor day makes
the windowed return `None` (guarded division).  With the price series
`{(0, 0), (1, 1)}` and an event at day `0`, the anchor is day `0` with close
`0`; for window `1` the future day `1` resolves with close `1`, and the source
stores `(1 - 0) / 0 * 100`, which under numpy float64 semantics is `+Inf`
(stored in the result column), not a missing value. -/
theorem zero_base_price_counterexample :
    postTransactionReturnsRow [((0 : ℤ), (0 : ℚ)), (1, 1)] [1] 0 = [some FVal.inf] ∧
    postTransactionReturnsRow [((0 : ℤ), (0 : ℚ)), (1, 1)] [1] 0 ≠ [none] := by
  constructor <;> decide

/-- Helper: a zero base price always produces a non-finite value under numpy
float64 division semantics. -/
theorem returnPct_zero_base (fp : ℚ) :
    returnPct 0 fp = FVal.inf ∨ returnPct 0 fp = FVal.ninf ∨ returnPct 0 fp = FVal.nan := by
  rw [returnPct, if_pos rfl]
  split_ifs <;> simp

/-- C2 (amended): for an event whose anchor trading day has a zero close price,
no exception is raised, but the division is not guarded: every horizon cell of
that event is either still missing (no future trading day inside the tolerance)
or holds a stored non-finite value (`+Inf`, `-Inf`, or `NaN`) — never a finite
return and never a guarded `None` in place of a resolvable division. -/
theorem zero_base_price_spec (stock : List (ℤ × ℚ)) (windows : List ℕ) (txnDate : ℤ)
    (closest : ℤ)
    (hanchor : resolveOnOrAfter (stock.map Prod.fst) txnDate = some closest)
    (hzero : priceByDate stock closest = some 0) :
    ∀ cell ∈ postTransactionReturnsRow stock windows txnDate,
      cell = none ∨ cell = some FVal.inf ∨ cell = some FVal.ninf ∨ cell = some FVal.nan := by
  intro cell hcell
  rw [postTransactionReturnsRow] at hcell
  simp only [hanchor, hzero] at hcell
  rcases List.mem_map.mp hcell with ⟨w, -, rfl⟩
  rcases hfd : findFutureDate (stock.map Prod.fst) closest w with - | fd
  · left; rfl
  · dsimp only
    rcases hfp : priceByDate stock fd with - | fp
    · left; rfl
    · dsimp only
      rcases returnPct_zero_base fp with h | h | h
      · right; left; rw [h]
      · right; right; left; rw [h]
      · right; right; right; rw [h]

/-- C2 witness: concrete zero-base-price event where the single horizon stores
`+Inf`. -/
theorem zero_base_price_spec_witness :
    (some FVal.inf : Option FVal) = none ∨ (some FVal.inf : Option FVal) = some FVal.inf ∨
      (some FVal.inf : Option FVal) = some FVal.ninf ∨
      (some FVal.inf : Option FVal) = some FVal.nan :=
  zero_base_price_spec [((0 : ℤ), (0 : ℚ)), (1, 1)] [1] 0 0 (by decide) (by decide)
    (some FVal.inf) (by decide)

/-! ## Actor classification (`identify_committee_members`) -/

/-- `charsAgree needle hay`: the haystack starts with the needle (the leading
block of a Python substring check). -/
def charsAgree : List Char → List Char → Bool
  | [], _ => true
  | _ :: _, [] => false
  | c :: cs, d :: ds => c == d && charsAgree cs ds

/-- Python's `needle in haystack` on strings: the needle occurs contiguously
somewhere in the haystack. -/
def charsOccur (needle : List Char) : List Char → Bool
  | [] => needle.isEmpty
  | d :: ds => charsAgree needle (d :: ds) || charsOccur needle ds

/-- `s.lower()` at the character-list level. -/
def lowerChars (s : String) : List Char := s.data.map Char.toLower

/-- `committee_keywords` (insider_analysis.py line 105). -/
def committeeKeywords : List String :=
  ["Committee", "Director", "Board", "Chair", "Audit", "Compensation"]

/-- `any(keyword.lower() in str(rel).lower() for keyword in committee_keywords)`
(insider_analysis.py line 118). -/
def relMatchesKeyword (rel : String) : Bool :=
  committeeKeywords.any (fun keyword => charsOccur (lowerChars keyword) (lowerChars rel))

/-- The per-insider loop body (insider_analysis.py lines 113-122): drop missing
relationship values, then flag the insider when any remaining value matches a
keyword (the `break` makes the loop exactly a short-circuit `any`). -/
def isCommitteeOfRoles (rels : List (Option String)) : Bool :=
  (rels.filterMap id).any relMatchesKeyword

/-- `identify_committee_members` as the mapping insider name → committee flag:
the records of the insider are the table rows whose name matches, and their
relationship column is examined. -/
def identifyCommitteeMembers (table : List (String × Option String)) (insider : String) : Bool :=
  isCommitteeOfRoles ((table.filter (fun row => row.1 == insider)).map Prod.snd)

/-- C8: the actor classifier flags an insider (Primary) iff some role text of
that insider contains, case-insensitively, some keyword of
`{committee, director, board, chair, audit, compensation}`; and the flag is
invariant under permuting the event table, so it depends only on the multiset
of role texts per actor, not on event order. -/
theorem identifyCommitteeMembers_spec (table table' : List (String × Option String))
    (hperm : table.Perm table') (insider : String) :
    (identifyCommitteeMembers table insider = true ↔
      ∃ rel, (insider, some rel) ∈ table ∧
        ∃ k ∈ committeeKeywords, charsOccur (lowerChars k) (lowerChars rel) = true) ∧
    identifyCommitteeMembers table insider = identifyCommitteeMembers table' insider := by
  constructor
  · rw [identifyCommitteeMembers, isCommitteeOfRoles]
    simp only [List.any_eq_true, List.mem_filterMap, List.mem_map, List.mem_filter,
      beq_iff_eq, id_eq, relMatchesKeyword]
    constructor
    · rintro ⟨rel, ⟨orel, ⟨⟨name, orel'⟩, ⟨hmem, rfl⟩, rfl⟩, hsome⟩, hkw⟩
      exact ⟨rel, by rwa [← hsome], hkw⟩
    · rintro ⟨rel, hmem, hkw⟩
      exact ⟨rel, ⟨some rel, ⟨(insider, some rel), ⟨hmem, rfl⟩, rfl⟩, rfl⟩, hkw⟩
  · rw [identifyCommitteeMembers, identifyCommitteeMembers, isCommitteeOfRoles,
      isCommitteeOfRoles]
    have hp : (((table.filter (fun row => row.1 == insider)).map Prod.snd).filterMap id).Perm
        (((table'.filter (fun row => row.1 == insider)).map Prod.snd).filterMap id) :=
      ((hperm.filter _).map _).filterMap _
    rw [Bool.eq_iff_iff]
    simp only [List.any_eq_true]
    constructor
    · rintro ⟨r, hr, hkw⟩; exact ⟨r, hp.mem_iff.mp hr, hkw⟩
    · rintro ⟨r, hr, hkw⟩; exact ⟨r, hp.mem_iff.mpr hr, hkw⟩

/-- C8 witness: actor `X` with role texts `["Director", "CFO"]` is classified
Primary (matches `director`), the classification fact is witnessed through the
iff, and the flag is unchanged under swapping the two events. -/
theorem identifyCommitteeMembers_spec_witness :
    identifyCommitteeMembers [("X", some "Director"), ("X", some "CFO")] "X" = true ∧
    identifyCommitteeMembers [("X", some "Director"), ("X", some "CFO")] "X" =
      identifyCommitteeMembers [("X", some "CFO"), ("X", some "Director")] "X" :=
  ⟨(identifyCommitteeMembers_spec [("X", some "Director"), ("X", some "CFO")]
      [("X", some "CFO"), ("X", some "Director")] (by decide) "X").1.mpr
      ⟨"Director", by decide, "Director", by decide, by decide⟩,
   (identifyCommitteeMembers_spec [("X", some "Director"), ("X", some "CFO")]
      [("X", some "CFO"), ("X", some "Director")] (by decide) "X").2⟩

/-! ## Committee vs. regular comparison (`analyze_transaction_impact`,
insider_analysis.py lines 288-313)

A row of the enriched event table at one horizon is `(insider_name, return)`
where the return cell may be missing.  `is_committee` is the column written by
`insider_df['insider_name'].map(is_committee_dict)`: a name absent from the
dict maps to missing. -/

/-- `insider_df['is_committee'].fillna(False)` for one row. -/
def isCommitteeFilled (isComm : String → Option Bool) (name : String) : Bool :=
  (isComm name).getD false

/-- `committee_mask = insider_df['is_committee'].fillna(False) == True`. -/
def committeeMask (isComm : String → Option Bool) (row : String × Option ℚ) : Bool :=
  isCommitteeFilled isComm row.1 == true

/-- `regular_mask = insider_df['is_committee'].fillna(False) == False`. -/
def regularMask (isComm : String → Option Bool) (row : String × Option ℚ) : Bool :=
  isCommitteeFilled isComm row.1 == false

/-- `insider_df[committee_mask][col].dropna()`. -/
def committeeData (isComm : String → Option Bool) (rows : List (String × Option ℚ)) : List ℚ :=
  (rows.filter (committeeMask isComm)).filterMap Prod.snd

/-- `insider_df[regular_mask][col].dropna()`. -/
def regularData (isComm : String → Option Bool) (rows : List (String × Option ℚ)) : List ℚ :=
  (rows.filter (regularMask isComm)).filterMap Prod.snd

theorem length_filter_add_length_filter_not_eq {α : Type} (p : α → Bool) (l : List α) :
    (l.filter p).length + (l.filter (fun x => !(p x))).length = l.length := by
  induction l with
  | nil => rfl
  | cons x xs ih =>
    by_cases h : p x = true
    · simp [List.filter, h, ih]
      omega
    · rw [Bool.not_eq_true] at h
      simp [List.filter, h, ih]
      omega

/-- C10: at every horizon each event row falls in exactly one of the committee
and regular groups — the regular mask is the boolean complement of the
committee mask, the filtered groups partition the table by count, and a row
whose insider is absent from the classification dict (missing committee
status) is placed in the regular group. -/
theorem committee_regular_partition (isComm : String → Option Bool)
    (rows : List (String × Option ℚ)) :
    (∀ row : String × Option ℚ, regularMask isComm row = !(committeeMask isComm row)) ∧
    (rows.filter (committeeMask isComm)).length + (rows.filter (regularMask isComm)).length
      = rows.length ∧
    (∀ row : String × Option ℚ, isComm row.1 = none →
      committeeMask isComm row = false ∧ regularMask isComm row = true) := by
  have hcompl : ∀ row : String × Option ℚ,
      regularMask isComm row = !(committeeMask isComm row) := by
    intro row
    rw [regularMask, committeeMask, isCommitteeFilled]
    cases isComm row.1 with
    | none => rfl
    | some b => cases b <;> rfl
  refine ⟨hcompl, ?_, ?_⟩
  · have : rows.filter (regularMask isComm)
        = rows.filter (fun row => !(committeeMask isComm row)) := by
      apply List.filter_congr
      intro row _
      rw [hcompl row]
    rw [this]
    exact length_filter_add_length_filter_not_eq _ rows
  · intro row hnone
    rw [committeeMask, regularMask, isCommitteeFilled, hnone]
    exact ⟨rfl, rfl⟩

/-- C10 witness: with a dict that classifies only `A` (as committee), a row for
the unclassified insider `B` lands in the regular group, and the two groups of
a concrete three-row table partition it. -/
theorem committee_regular_partition_witness :
    regularMask (fun n => if n = "A" then some true else none) (("B", some (1 : ℚ)))
      = !(committeeMask (fun n => if n = "A" then some true else none) (("B", some (1 : ℚ)))) ∧
    ([(("A" : String), some (1 : ℚ)), ("B", some 2), ("B", none)].filter
        (committeeMask (fun n => if n = "A" then some true else none))).length +
      ([(("A" : String), some (1 : ℚ)), ("B", some 2), ("B", none)].filter
        (regularMask (fun n => if n = "A" then some true else none))).length = 3 ∧
    committeeMask (fun n => if n = "A" then some true else none) (("B", some (1 : ℚ))) = false ∧
    regularMask (fun n => if n = "A" then some true else none) (("B", some (1 : ℚ))) = true := by
  have h := committee_regular_partition (fun n => if n = "A" then some true else none)
    [(("A" : String), some (1 : ℚ)), ("B", some 2), ("B", none)]
  exact ⟨h.1 ("B", some 1), h.2.1, h.2.2 ("B", some 1) (by decide)⟩

/-! ## `compare_groups` (the committee-vs-regular significance test,
insider_analysis.py lines 299-313) -/

/-- Insert into a sorted list (ascending). -/
def insertSorted (x : ℚ) : List ℚ → List ℚ
  | [] => [x]
  | y :: ys => if x ≤ y then x :: y :: ys else y :: insertSorted x ys

/-- Ascending sort, used to model the pandas median. -/
def sortRats : List ℚ → List ℚ
  | [] => []
  | x :: xs => insertSorted x (sortRats xs)

/-- `Series.mean()`: sum divided by count. -/
def listMean (xs : List ℚ) : ℚ := xs.sum / xs.length

/-- `Series.median()`: middle element of the sorted values, or the average of
the two middle elements for an even count. -/
def listMedian (xs : List ℚ) : ℚ :=
  let sorted := sortRats xs
  let n := sorted.length
  if n % 2 = 1 then sorted.getD (n / 2) 0
  else (sorted.getD (n / 2 - 1) 0 + sorted.getD (n / 2) 0) / 2

/-- The per-window entry of `results['committee_vs_regular']`
(insider_analysis.py lines 303-313). -/
structure CompareGroupsResult where
  committee_mean : ℚ
  committee_median : ℚ
  committee_count : ℕ
  regular_mean : ℚ
  regular_median : ℚ
  regular_count : ℕ
  t_statistic : ℚ
  p_value : ℚ
  significant_diff : Bool
deriving DecidableEq, Repr

/-- `compare_groups` at one horizon (insider_analysis.py lines 292-313).
`ttestInd` abstracts `scipy.stats.ttest_ind`; the source invokes it on the two
dropna'd subsets with `equal_var=False` (the Welch unequal-variance form),
which the embedding records as the Boolean argument `false`. -/
def compareGroups (ttestInd : List ℚ → List ℚ → Bool → ℚ × ℚ)
    (isComm : String → Option Bool) (rows : List (String × Option ℚ)) :
    Option CompareGroupsResult :=
  let committee_data := committeeData isComm rows
  let regular_data := regularData isComm rows
  if 5 ≤ committee_data.length ∧ 5 ≤ regular_data.length then
    let tp := ttestInd committee_data regular_data false
    some { committee_mean := listMean committee_data
           committee_median := listMedian committee_data
           committee_count := committee_data.length
           regular_mean := listMean regular_data
           regular_median := listMedian regular_data
           regular_count := regular_data.length
           t_statistic := tp.1
           p_value := tp.2
           significant_diff := decide (tp.2 < 5 / 100) }
  else none

/-- C6: `compare_groups` hands exactly the two non-missing return subsets to the
t-test procedure with the unequal-variance (Welch) flag; it yields no result
precisely when either subset has fewer than 5 non-missing returns; and any
produced result has `significant_diff` equal to `p_value < 0.05` and carries
the subsets' counts. -/
theorem compareGroups_spec (ttestInd : List ℚ → List ℚ → Bool → ℚ × ℚ)
    (isComm : String → Option Bool) (rows : List (String × Option ℚ)) :
    (compareGroups ttestInd isComm rows = none ↔
      (committeeData isComm rows).length < 5 ∨ (regularData isComm rows).length < 5) ∧
    (∀ res, compareGroups ttestInd isComm rows = some res →
      (res.t_statistic, res.p_value)
          = ttestInd (committeeData isComm rows) (regularData isComm rows) false ∧
      res.significant_diff = decide (res.p_value < 5 / 100) ∧
      res.committee_count = (committeeData isComm rows).length ∧
      res.regular_count = (regularData isComm rows).length) := by
  rw [compareGroups]
  by_cases h : 5 ≤ (committeeData isComm rows).length ∧ 5 ≤ (regularData isComm rows).length
  · rw [if_pos h]
    constructor
    · constructor
      · intro hcontra; cases hcontra
      · intro hcontra; omega
    · intro res hres
      cases hres
      exact ⟨rfl, rfl, rfl, rfl⟩
  · rw [if_neg h]
    constructor
    · constructor
      · intro _; omega
      · intro _; rfl
    · intro res hres; cases hres

/-- A concrete classification dict for witnesses: only insider `A` is known,
and is a committee member. -/
def exIsComm : String → Option Bool := fun n => if n = "A" then some true else none

/-- A concrete ten-row horizon table: five committee returns and five regular
returns (the `B` rows have no dict entry, hence fall to regular). -/
def exRows10 : List (String × Option ℚ) :=
  List.replicate 5 ("A", some 1) ++ List.replicate 5 ("B", some 2)

/-- A stub for the external t-test procedure, returning `(t, p) = (0, 1)`. -/
def exTtest : List ℚ → List ℚ → Bool → ℚ × ℚ := fun _ _ _ => (0, 1)

/-- The result record `compare_groups` produces on the witness input. -/
def exRes : CompareGroupsResult :=
  { committee_mean := listMean (committeeData exIsComm exRows10)
    committee_median := listMedian (committeeData exIsComm exRows10)
    committee_count := 5
    regular_mean := listMean (regularData exIsComm exRows10)
    regular_median := listMedian (regularData exIsComm exRows10)
    regular_count := 5
    t_statistic := 0
    p_value := 1
    significant_diff := decide ((1 : ℚ) < 5 / 100) }

/-- C6 witness: with 5 committee returns and 5 regular returns and a stub
t-test, a result is produced; its `(t, p)` comes from the t-test applied to
the two dropna'd subsets with the Welch flag, its significance flag is
`p < 0.05`, and its counts are the subset sizes. -/
theorem compareGroups_spec_witness :
    (exRes.t_statistic, exRes.p_value)
        = exTtest (committeeData exIsComm exRows10) (regularData exIsComm exRows10) false ∧
    exRes.significant_diff = decide (exRes.p_value < 5 / 100) ∧
    exRes.committee_count = (committeeData exIsComm exRows10).length ∧
    exRes.regular_count = (regularData exIsComm exRows10).length :=
  (compareGroups_spec exTtest exIsComm exRows10).2 exRes rfl

/-! ## Lag-correlation analysis (`analyze_reaction_time`,
sentiment_analysis.py lines 520-560)

A merged row is `(Daily Return, Average Sentiment)`, both possibly missing;
`merged_df` is modelled by the two aligned columns `ret` and `sent`. -/

/-- `merged_df['Average Sentiment'].shift(k)` at row `t`: missing for the first
`k` rows, else the sentiment of row `t - k`. -/
def shiftedSent (sent : List (Option ℚ)) (k t : ℕ) : Option ℚ :=
  if t < k then none else sent.getD (t - k) none

/-- Whether row `t` survives the `.dropna()` on the five-column frame
`lag_analysis` (sentiment_analysis.py lines 521-528): the return and all four
shifted sentiment columns must be present. -/
def lagRowKept (ret sent : List (Option ℚ)) (t : ℕ) : Bool :=
  (ret.getD t none).isSome && (List.range 4).all (fun k => (shiftedSent sent k t).isSome)

/-- The row indices surviving the series-wide `.dropna()`. -/
def lagKeptIdxs (ret sent : List (Option ℚ)) : List ℕ :=
  (List.range ret.length).filter (lagRowKept ret sent)

/-- The (shifted sentiment, return) pairs over which the source computes the
lag-`L` correlation: the columns of `lag_analysis` after the global dropna
(`Series.corr` performs its own pairwise drop, but no missing value remains at
that point). -/
def pairsForLag (ret sent : List (Option ℚ)) (L : ℕ) : List (ℚ × ℚ) :=
  (lagKeptIdxs ret sent).map (fun t => ((shiftedSent sent L t).getD 0, (ret.getD t none).getD 0))

/-- The pairs the claim describes: for lag `L`, all rows where the `L`-shifted
sentiment and the return are both defined, dropped pairwise per lag.  (Stated
from the spec's words, for comparison with `pairsForLag` above.) -/
def pairsForLagPairwise (ret sent : List (Option ℚ)) (L : ℕ) : List (ℚ × ℚ) :=
  ((List.range ret.length).filter (fun t =>
      (ret.getD t none).isSome && (shiftedSent sent L t).isSome)).map
    (fun t => ((shiftedSent sent L t).getD 0, (ret.getD t none).getD 0))

/-- `analyze_reaction_time` up to the correlation values (sentiment_analysis.py
lines 520-556): `none` models the `(None, None, None)` early return when fewer
than 3 rows survive the dropna; `corr` abstracts `pandas.Series.corr`; the `0`
branch is the source's substitution when a column is entirely missing (after
the dropna this requires the frame to be empty). -/
def lagCorrelations (corr : List (ℚ × ℚ) → ℚ) (ret sent : List (Option ℚ)) :
    Option (List ℚ) :=
  if (lagKeptIdxs ret sent).length < 3 then none
  else some ((List.range 4).map (fun L =>
    if (lagKeptIdxs ret sent).isEmpty then 0 else corr (pairsForLag ret sent L)))

/-- A six-row merged table with every value present. -/
def exRet6 : List (Option ℚ) := [some 1, some 2, some 1, some 2, some 1, some 2]

/-- Sentiment column for the six-row example. -/
def exSent6 : List (Option ℚ) := [some 1, some 1, some 2, some 2, some 1, some 2]

/-- C4 counterexample: on a six-row table with no missing value at all, the
lag-0 correlation is computed over only 3 rows — the global `.dropna()` removed
the first three rows because their 3-day-shifted sentiment is undefined — while
pairwise per-lag dropping would keep all 6 rows.  The row sets therefore are
not the pairwise ones the claim describes. -/
theorem lag_pairwise_counterexample :
    (pairsForLag exRet6 exSent6 0).length = 3 ∧
    (pairsForLagPairwise exRet6 exSent6 0).length = 6 ∧
    pairsForLag exRet6 exSent6 0 ≠ pairsForLagPairwise exRet6 exSent6 0 := by
  refine ⟨by decide, by decide, by decide⟩

/-- C4 (amended): the source drops rows once, series-wide: a row enters the
correlation of every lag exactly when its return and all four shifted
sentiment values (lags 0-3) are present — equivalently the kept rows are
those `t` with `3 ≤ t` and `sent[t], sent[t-1], sent[t-2], sent[t-3]` and
`ret[t]` all defined — and each lag's Pearson correlation is computed over
that single common row set (so even lag 0 loses the first three rows). -/
theorem lagCorrelations_series_wide_spec (corr : List (ℚ × ℚ) → ℚ)
    (ret sent : List (Option ℚ)) :
    (∀ rs, lagCorrelations corr ret sent = some rs →
      3 ≤ (lagKeptIdxs ret sent).length ∧
      rs = (List.range 4).map (fun L => corr (pairsForLag ret sent L))) ∧
    (∀ t, t ∈ lagKeptIdxs ret sent ↔
      3 ≤ t ∧ t < ret.length ∧ (ret.getD t none).isSome = true ∧
      ∀ k < 4, (sent.getD (t - k) none).isSome = true) := by
  constructor
  · intro rs hrs
    rw [lagCorrelations] at hrs
    by_cases h : (lagKeptIdxs ret sent).length < 3
    · rw [if_pos h] at hrs; cases hrs
    · rw [if_neg h] at hrs
      have hlen : 3 ≤ (lagKeptIdxs ret sent).length := by omega
      injection hrs with hrs'
      subst hrs'
      refine ⟨hlen, ?_⟩
      apply List.map_congr_left
      intro L _
      have hne : (lagKeptIdxs ret sent).isEmpty = false := by
        cases hk : lagKeptIdxs ret sent with
        | nil => rw [hk] at hlen; simp at hlen
        | cons a as => rfl
      simp [hne]
  · intro t
    rw [lagKeptIdxs, List.mem_filter, List.mem_range]
    constructor
    · rintro ⟨htr, hkept⟩
      rw [lagRowKept, Bool.and_eq_true, List.all_eq_true] at hkept
      obtain ⟨hret, hall⟩ := hkept
      have h3 := hall 3 (by simp)
      rw [shiftedSent] at h3
      by_cases h3t : t < 3
      · rw [if_pos h3t] at h3
        simp at h3
      · refine ⟨by omega, htr, hret, ?_⟩
        intro k hk
        have hkk := hall k (by simp [List.mem_range]; omega)
        rw [shiftedSent, if_neg (by omega)] at hkk
        exact hkk
    · rintro ⟨h3t, htlen, hret, hall⟩
      refine ⟨htlen, ?_⟩
      rw [lagRowKept, Bool.and_eq_true, List.all_eq_true]
      refine ⟨hret, ?_⟩
      intro k hkmem
      have hk4 : k < 4 := List.mem_range.mp hkmem
      rw [shiftedSent, if_neg (by omega)]
      exact hall k hk4

/-- A stub for `Series.corr`: the first coordinate of the first pair. -/
def exCorr : List (ℚ × ℚ) → ℚ := fun ps => (ps.headD (0, 0)).1

/-- C4 witness: on the fully-present six-row table at least 3 rows survive,
all four lags are evaluated over the common surviving rows, and row 3 is in
the surviving set. -/
theorem lagCorrelations_series_wide_spec_witness :
    (3 ≤ (lagKeptIdxs exRet6 exSent6).length ∧
      [(2 : ℚ), 2, 1, 1] = (List.range 4).map (fun L => exCorr (pairsForLag exRet6 exSent6 L))) ∧
    3 ∈ lagKeptIdxs exRet6 exSent6 :=
  ⟨(lagCorrelations_series_wide_spec exCorr exRet6 exSent6).1 [2, 2, 1, 1] (by decide),
   ((lagCorrelations_series_wide_spec exCorr exRet6 exSent6).2 3).mpr (by decide)⟩

/-! ## CAR builder (`create_reaction_time_chart`,
insider_analysis.py lines 519-610) -/

/-- `days_before` (insider_analysis.py line 546). -/
def daysBefore : ℕ := 5

/-- `days_after` (insider_analysis.py line 547). -/
def daysAfter : ℕ := 15

/-- `date_to_idx` (insider_analysis.py line 543): a dict comprehension over the
enumerated dates, so a duplicated date keeps its last index. -/
def dateToIdx (dates : List ℤ) (d : ℤ) : Option ℕ :=
  ((dates.enum.filter (fun p => p.2 == d)).map Prod.fst).getLast?

/-- The daily simple-return loop (insider_analysis.py lines 580-583):
`(p[i] - p[i-1]) / p[i-1] * 100` for consecutive window prices. -/
def dailyReturnsOfPrices : List ℚ → List ℚ
  | p0 :: p1 :: rest => (p1 - p0) / p0 * 100 :: dailyReturnsOfPrices (p1 :: rest)
  | _ => []

/-- The cumulative loop (insider_analysis.py lines 589-593): running additive
sum of the daily returns. -/
def cumulativeReturns (acc : ℚ) : List ℚ → List ℚ
  | [] => []
  | r :: rs => (acc + r) :: cumulativeReturns (acc + r) rs

/-- One event's cumulative-return curve: a synthetic `0.0` is prepended for the
first window day (line 586) before the running sum starts from `cum_return = 0`. -/
def eventCurve (windowPrices : List ℚ) : List ℚ :=
  cumulativeReturns 0 (0 :: dailyReturnsOfPrices windowPrices)

/-- `stock_df.iloc[idx - days_before : idx + days_after + 1]['Close']`
(insider_analysis.py line 577). -/
def eventWindowPrices (stock : List (ℤ × ℚ)) (idx : ℕ) : List ℚ :=
  ((stock.drop (idx - daysBefore)).take (daysBefore + daysAfter + 1)).map Prod.snd

/-- Per-event qualification (insider_analysis.py lines 553-573): resolve the
anchor trading day, map it to its index, and require `days_before` prior rows
and `days_after` following rows (`if idx < days_before or
idx + days_after >= len(stock_df): continue`). -/
def carQualifyIdx (stock : List (ℤ × ℚ)) (txnDate : ℤ) : Option ℕ :=
  match resolveOnOrAfter (stock.map Prod.fst) txnDate with
  | none => none
  | some closest =>
    match dateToIdx (stock.map Prod.fst) closest with
    | none => none
    | some idx =>
      if idx < daysBefore ∨ stock.length ≤ idx + daysAfter then none else some idx

/-- `car_data`: one cumulative curve per qualifying transaction
(insider_analysis.py lines 548-595); `transaction_count = length`. -/
def carData (stock : List (ℤ × ℚ)) (txnDates : List ℤ) : List (List ℚ) :=
  txnDates.filterMap (fun txn =>
    (carQualifyIdx stock txn).map (fun idx => eventCurve (eventWindowPrices stock idx)))

/-- `create_reaction_time_chart` up to the data the figure plots: `none` models
the `return None` paths (fewer than 5 transactions of the requested type at
line 534, or `not car_data or transaction_count < 3` at line 604). -/
def createReactionTimeChart (insider : List (Option String × ℤ)) (stock : List (ℤ × ℚ))
    (txnType : String) : Option (List (List ℚ)) :=
  let filtered := (insider.filter (fun row => row.1 == some txnType)).map Prod.snd
  if filtered.length < 5 then none
  else
    let cd := carData stock filtered
    if cd.isEmpty ∨ cd.length < 3 then none else some cd

/-- Column `j` of the stacked curves (`np.mean(car_data, axis=0)` reads these). -/
def colAt (curves : List (List ℚ)) (j : ℕ) : List ℚ := curves.map (fun c => c.getD j 0)

/-- `avg_car[j] = np.mean(car_data, axis=0)[j]` (insider_analysis.py line 609). -/
def avgCar (curves : List (List ℚ)) (j : ℕ) : ℚ := listMean (colAt curves j)

/-- Population variance (`np.std(..., axis=0)` squared, default `ddof=0`). -/
def popVariance (xs : List ℚ) : ℚ :=
  ((xs.map (fun x => (x - listMean xs) * (x - listMean xs))).sum) / xs.length

/-- The square of `std_car[j] = np.std(car_data, axis=0)[j] / np.sqrt(len(car_data))`
(insider_analysis.py line 610), represented exactly by squaring away the
irrational square roots. -/
def carStdErrSq (curves : List (List ℚ)) (j : ℕ) : ℚ :=
  popVariance (colAt curves j) / curves.length

/-- A 21-trading-day price series at days `0..20`, constant close `1`. -/
def exStock21 : List (ℤ × ℚ) := (List.range 21).map (fun i => ((i : ℤ), 1))

/-- Four `Sale` transactions at day `5`: every one of them qualifies for the
full before/after window (index 5 of 21 rows). -/
def exInsider4 : List (Option String × ℤ) :=
  [(some "Sale", 5), (some "Sale", 5), (some "Sale", 5), (some "Sale", 5)]

/-- Five `Sale` transactions at day `5`. -/
def exInsider5 : List (Option String × ℤ) :=
  [(some "Sale", 5), (some "Sale", 5), (some "Sale", 5), (some "Sale", 5), (some "Sale", 5)]

/-- C5 counterexample: with 4 qualifying `Sale` events (all anchored at index 5
of a 21-day series) the CAR builder returns `None`, although at least 3 events
qualify for the full before/after windowing — the source additionally requires
at least 5 transactions of the category before any windowing is attempted. -/
theorem car_minimum_counterexample :
    createReactionTimeChart exInsider4 exStock21 "Sale" = none ∧
    (carData exStock21
      ((exInsider4.filter (fun row => row.1 == some "Sale")).map Prod.snd)).length = 4 := by
  refine ⟨by decide, by decide⟩

/-- C5 (amended): the CAR builder returns `None` exactly when the requested
category has fewer than 5 transactions or fewer than 3 of them qualify for the
full before/after windowing; when it returns a result, the result is the list
of qualifying per-event curves, there are at least 3 of them, and the category
had at least 5 transactions. -/
theorem createReactionTimeChart_spec (insider : List (Option String × ℤ))
    (stock : List (ℤ × ℚ)) (txnType : String) :
    (createReactionTimeChart insider stock txnType = none ↔
      ((insider.filter (fun row => row.1 == some txnType)).map Prod.snd).length < 5 ∨
      (carData stock ((insider.filter (fun row => row.1 == some txnType)).map Prod.snd)).length
        < 3) ∧
    (∀ cd, createReactionTimeChart insider stock txnType = some cd →
      cd = carData stock ((insider.filter (fun row => row.1 == some txnType)).map Prod.snd) ∧
      3 ≤ cd.length ∧
      5 ≤ ((insider.filter (fun row => row.1 == some txnType)).map Prod.snd).length) := by
  rw [createReactionTimeChart]
  by_cases h1 : ((insider.filter (fun row => row.1 == some txnType)).map Prod.snd).length < 5
  · rw [if_pos h1]
    exact ⟨⟨fun _ => Or.inl h1, fun _ => rfl⟩, fun cd hcd => by cases hcd⟩
  · rw [if_neg h1]
    by_cases h2 : (carData stock
        ((insider.filter (fun row => row.1 == some txnType)).map Prod.snd)).length < 3
    · rw [if_pos (Or.inr h2)]
      exact ⟨⟨fun _ => Or.inr h2, fun _ => rfl⟩, fun cd hcd => by cases hcd⟩
    · rw [if_neg ?hcond]
      case hcond =>
        rintro (hemp | hlt)
        · rw [List.isEmpty_iff] at hemp
          rw [hemp] at h2
          exact h2 (by simp)
        · exact h2 hlt
      constructor
      · constructor
        · intro hcontra; cases hcontra
        · rintro (h | h)
          · exact absurd h h1
          · exact absurd h h2
      · intro cd hcd
        injection hcd with hcd'
        refine ⟨hcd'.symm, ?_, by omega⟩
        rw [← hcd']
        omega

/-- C5 witness: with 5 qualifying `Sale` events the builder returns exactly the
5 per-event curves. -/
theorem createReactionTimeChart_spec_witness :
    carData exStock21 ((exInsider5.filter (fun row => row.1 == some "Sale")).map Prod.snd)
        = carData exStock21 ((exInsider5.filter (fun row => row.1 == some "Sale")).map Prod.snd) ∧
    3 ≤ (carData exStock21
        ((exInsider5.filter (fun row => row.1 == some "Sale")).map Prod.snd)).length ∧
    5 ≤ ((exInsider5.filter (fun row => row.1 == some "Sale")).map Prod.snd).length :=
  (createReactionTimeChart_spec exInsider5 exStock21 "Sale").2 _ rfl

theorem cumulativeReturns_length (xs : List ℚ) : ∀ acc, (cumulativeReturns acc xs).length
    = xs.length := by
  induction xs with
  | nil => intro acc; rfl
  | cons r rs ih => intro acc; simp [cumulativeReturns, ih]

theorem cumulativeReturns_getD (xs : List ℚ) : ∀ (acc : ℚ) (k : ℕ), k < xs.length →
    (cumulativeReturns acc xs).getD k 0 = acc + (xs.take (k + 1)).sum := by
  induction xs with
  | nil => intro acc k hk; simp at hk
  | cons r rs ih =>
    intro acc k hk
    cases k with
    | zero => simp [cumulativeReturns]
    | succ k' =>
      rw [cumulativeReturns, List.getD_cons_succ, ih (acc + r) k' (by simpa using hk),
        List.take_succ_cons, List.sum_cons]
      ring

/-- C9: in the CAR builder, (a) every curve in `car_data` is the per-event
curve of that event's price window; (b) the per-event curve at offset `k` is
the additive running cumulative sum of the daily simple percentage returns
with a synthetic `0.0` prepended (the sum of the first `k + 1` entries of
`0 :: dailyReturns`, not a compounding product); (c) the reported curve at
each offset is the per-offset arithmetic mean of the per-event curves; and
(d) the reported standard error squared, times `n` twice, is the sum of
squared deviations from that mean — i.e. `standard_error = stddev / sqrt(n)`
with the population standard deviation. -/
theorem car_curve_additive_spec (stock : List (ℤ × ℚ)) (txns : List ℤ) (ps : List ℚ)
    (curves : List (List ℚ)) (j k : ℕ)
    (hk : k < (eventCurve ps).length) (hcurves : curves ≠ []) :
    (∀ c ∈ carData stock txns, ∃ txn idx, carQualifyIdx stock txn = some idx ∧
        c = eventCurve (eventWindowPrices stock idx)) ∧
    (eventCurve ps).getD k 0 = ((0 :: dailyReturnsOfPrices ps).take (k + 1)).sum ∧
    (curves.length : ℚ) * avgCar curves j = (curves.map (fun c => c.getD j 0)).sum ∧
    carStdErrSq curves j * (curves.length : ℚ) * (curves.length : ℚ)
      = ((colAt curves j).map
          (fun x => (x - avgCar curves j) * (x - avgCar curves j))).sum := by
  have hn : ((curves.length : ℚ)) ≠ 0 := by
    have hl : curves.length ≠ 0 := fun h => hcurves (List.length_eq_zero.mp h)
    exact_mod_cast hl
  refine ⟨?_, ?_, ?_, ?_⟩
  · intro c hc
    rw [carData] at hc
    rcases List.mem_filterMap.mp hc with ⟨txn, -, hmap⟩
    rcases Option.map_eq_some'.mp hmap with ⟨idx, hidx, hcurve⟩
    exact ⟨txn, idx, hidx, hcurve.symm⟩
  · rw [eventCurve] at hk ⊢
    rw [cumulativeReturns_getD _ 0 k (by simpa [cumulativeReturns_length] using hk), zero_add]
  · rw [avgCar, listMean, colAt, List.length_map]
    rw [mul_comm, div_mul_cancel₀ _ hn]
  · rw [carStdErrSq, popVariance, avgCar, colAt, List.length_map]
    field_simp
    ring

/-- C9 witness: for the two-day window `[1, 2]` the curve value at offset `1`
is the prefix sum of the prepended daily returns, and for one curve `[0, 100]`
the mean and squared standard error satisfy the stated identities at offset 1. -/
theorem car_curve_additive_spec_witness :
    (∀ c ∈ carData exStock21 [5], ∃ txn idx, carQualifyIdx exStock21 txn = some idx ∧
        c = eventCurve (eventWindowPrices exStock21 idx)) ∧
    (eventCurve [(1 : ℚ), 2]).getD 1 0
        = (((0 : ℚ) :: dailyReturnsOfPrices [(1 : ℚ), 2]).take 2).sum ∧
    ((([[(0 : ℚ), 100]] : List (List ℚ)).length : ℚ) * avgCar [[(0 : ℚ), 100]] 1
        = (([[(0 : ℚ), 100]] : List (List ℚ)).map (fun c => c.getD 1 0)).sum) ∧
    carStdErrSq [[(0 : ℚ), 100]] 1 * (([[(0 : ℚ), 100]] : List (List ℚ)).length : ℚ)
        * (([[(0 : ℚ), 100]] : List (List ℚ)).length : ℚ)
      = ((colAt [[(0 : ℚ), 100]] 1).map
          (fun x => (x - avgCar [[(0 : ℚ), 100]] 1) * (x - avgCar [[(0 : ℚ), 100]] 1))).sum :=
  car_curve_additive_spec exStock21 [5] [(1 : ℚ), 2] [[(0 : ℚ), 100]] 1 1
    (by decide) (by decide)

/-! ## Caller-visible mutation (C1)

`calculate_post_transaction_returns` and `analyze_transaction_impact` receive
caller-owned DataFrames.  To reason about mutation we model a DataFrame at the
column level: an ordered association list of column name to cell list.  Only
the statements that assign into a *caller-owned* frame are modelled here:
`result_df` (a copy, line 172) is not caller-owned.

* line 176: `stock_df['Date'] = pd.to_datetime(stock_df['Date'])`
* line 263: `insider_df['is_committee'] = insider_df['insider_name'].map(is_committee_dict)`
* line 316: `insider_df['quarter'] = insider_df['date'].dt.to_period('Q').astype(str)`
-/

/-- A pandas cell, at the granularity the mutation claims need. -/
inductive Cell where
  | int (n : ℤ)
  | rat (q : ℚ)
  | str (s : String)
  | bool (b : Bool)
  | na
deriving DecidableEq, Repr

/-- A DataFrame as an ordered list of named columns. -/
abbrev DataFrame : Type := List (String × List Cell)

/-- Read a column (first occurrence; a pandas frame has unique names). -/
def getCol (df : DataFrame) (c : String) : Option (List Cell) :=
  (df.find? (fun col => col.1 == c)).map Prod.snd

/-- `df[c] = v`: replace the column in place when it exists, else append it at
the end (pandas column assignment). -/
def setCol (df : DataFrame) (c : String) (v : List Cell) : DataFrame :=
  if df.any (fun col => col.1 == c) then
    df.map (fun col => if col.1 == c then (c, v) else col)
  else df ++ [(c, v)]

/-- The column names of a frame. -/
def colNames (df : DataFrame) : List String := df.map Prod.fst

/-- State of the caller's `insider_df` after `calculate_post_transaction_returns`
returns: the function works on `result_df = insider_df.copy()` (line 172), so
the caller's object is untouched. -/
def calcReturns_insiderAfter (insider stock : DataFrame) : DataFrame := insider

/-- State of the caller's `stock_df` after `calculate_post_transaction_returns`
returns: line 176 reassigns the `Date` column in place with its
`pd.to_datetime` conversion (`toDatetime` abstracts that library call). -/
def calcReturns_stockAfter (toDatetime : Cell → Cell) (insider stock : DataFrame) : DataFrame :=
  setCol stock "Date" (((getCol stock "Date").getD []).map toDatetime)

/-- `insider_df['insider_name'].map(is_committee_dict)` for one cell: a name
present in the dict maps to its Boolean, anything else to missing. -/
def mapIsCommittee (isComm : String → Option Bool) (c : Cell) : Cell :=
  match c with
  | Cell.str name =>
    match isComm name with
    | some b => Cell.bool b
    | none => Cell.na
  | _ => Cell.na

/-- State of the caller's `insider_df` after `analyze_transaction_impact`
returns: lines 263 and 316 assign the `is_committee` and `quarter` columns
directly on the caller's frame (`toQuarter` abstracts
`.dt.to_period('Q').astype(str)`). -/
def analyzeImpact_insiderAfter (isComm : String → Option Bool) (toQuarter : Cell → Cell)
    (insider : DataFrame) : DataFrame :=
  let df1 := setCol insider "is_committee"
    (((getCol insider "insider_name").getD []).map (mapIsCommittee isComm))
  setCol df1 "quarter" (((getCol df1 "date").getD []).map toQuarter)

/-- The caller's `insider_df` for the mutation counterexample: the two columns
the functions read, with no rows (so the abstracted cell conversions are never
applied and their concrete instantiations are irrelevant to the outcome). -/
def exCallerInsider : DataFrame :=
  [("insider_name", ([] : List Cell)), ("date", ([] : List Cell))]

/-- C1 counterexample: `analyze_transaction_impact` mutates the caller's
`insider_df`: on a frame holding only the `insider_name` and `date` columns it
adds the `is_committee` and `quarter` columns, so the caller's object is not
unchanged after the call — it has gained columns. -/
theorem impact_mutates_caller_counterexample :
    analyzeImpact_insiderAfter (fun _ => none) (fun c => c) exCallerInsider
        ≠ exCallerInsider ∧
    colNames (analyzeImpact_insiderAfter (fun _ => none) (fun c => c) exCallerInsider)
        = ["insider_name", "date", "is_committee", "quarter"] := by
  refine ⟨by decide, by decide⟩

theorem mem_colNames_setCol (df : DataFrame) (c : String) (v : List Cell) :
    c ∈ colNames (setCol df c v) := by
  rw [setCol]
  by_cases h : df.any (fun col => col.1 == c)
  · rw [if_pos h]
    rcases List.any_eq_true.mp h with ⟨col, hcol, hbeq⟩
    rw [colNames]
    exact List.mem_map.mpr ⟨(c, v), List.mem_map.mpr ⟨col, hcol, by rw [if_pos hbeq]⟩, rfl⟩
  · rw [if_neg h, colNames, List.map_append]
    exact List.mem_append.mpr (Or.inr (by simp))

theorem mem_colNames_setCol_other (df : DataFrame) (c c' : String) (v : List Cell)
    (h : c' ∈ colNames df) : c' ∈ colNames (setCol df c v) := by
  rcases List.mem_map.mp h with ⟨col, hcol, rfl⟩
  rw [setCol]
  by_cases hany : df.any (fun col => col.1 == c)
  · rw [if_pos hany, colNames]
    by_cases hc : col.1 == c
    · refine List.mem_map.mpr ⟨(c, v), List.mem_map.mpr ⟨col, hcol, by rw [if_pos hc]⟩, ?_⟩
      exact (beq_iff_eq.mp hc).symm
    · exact List.mem_map.mpr
        ⟨col, List.mem_map.mpr ⟨col, hcol, by rw [if_neg (by simpa using hc)]⟩, rfl⟩
  · rw [if_neg hany, colNames, List.map_append]
    exact List.mem_append.mpr (Or.inl (List.mem_map.mpr ⟨col, hcol, rfl⟩))

theorem setCol_self_of_getCol (df : DataFrame) (c : String) (v : List Cell)
    (hnodup : (colNames df).Nodup) (hv : getCol df c = some v) :
    setCol df c v = df := by
  rcases Option.map_eq_some'.mp hv with ⟨col0, hfind, hsnd⟩
  have hcol0mem : col0 ∈ df := List.mem_of_find?_eq_some hfind
  have hbeq0 : (col0.1 == c) = true := by simpa using List.find?_some hfind
  have hcol0c : col0.1 = c := beq_iff_eq.mp hbeq0
  have hany : df.any (fun col => col.1 == c) = true :=
    List.any_eq_true.mpr ⟨col0, hcol0mem, hbeq0⟩
  rw [setCol, if_pos hany]
  have hinj := List.inj_on_of_nodup_map (f := Prod.fst) hnodup
  have hpt : ∀ col ∈ df, (if col.1 == c then ((c, v) : String × List Cell) else col) = col := by
    intro col hcol
    by_cases hc : col.1 = c
    · rw [if_pos (beq_iff_eq.mpr hc)]
      have hcc0 : col = col0 := hinj hcol hcol0mem (by rw [hc, hcol0c])
      have h0 : ((c, v) : String × List Cell) = col0 := by
        rw [← hcol0c, ← hsnd]
      rw [hcc0, h0]
    · rw [if_neg (by simpa using hc)]
  calc df.map (fun col => if col.1 == c then ((c, v) : String × List Cell) else col)
      = df.map id := by
        apply List.map_congr_left
        intro col hcol
        simpa using hpt col hcol
    _ = df := List.map_id df

/-- C1 (amended): `calculate_post_transaction_returns` leaves the caller's
`insider_df` unchanged (it operates on a copy), and rewrites the caller's
`stock_df`'s `Date` column in place with its `to_datetime` conversion — a
no-op precisely when the conversion leaves every `Date` cell unchanged (as it
does when the column is already datetime, the pipeline's normal state), but a
caller-visible write nonetheless; `analyze_transaction_impact` mutates the
caller's `insider_df` outright, adding/overwriting its `is_committee` and
`quarter` columns, so that a frame that lacked one of those columns is never
equal to its pre-call state. -/
theorem caller_mutation_spec (insider stock : DataFrame) (toDT toQ : Cell → Cell)
    (isComm : String → Option Bool)
    (hnodup : (colNames stock).Nodup)
    (hmissing : "is_committee" ∉ colNames insider) :
    calcReturns_insiderAfter insider stock = insider ∧
    (∀ dateCol, getCol stock "Date" = some dateCol → dateCol.map toDT = dateCol →
      calcReturns_stockAfter toDT insider stock = stock) ∧
    "is_committee" ∈ colNames (analyzeImpact_insiderAfter isComm toQ insider) ∧
    "quarter" ∈ colNames (analyzeImpact_insiderAfter isComm toQ insider) ∧
    analyzeImpact_insiderAfter isComm toQ insider ≠ insider := by
  have hisc : "is_committee" ∈ colNames (analyzeImpact_insiderAfter isComm toQ insider) := by
    rw [analyzeImpact_insiderAfter]
    exact mem_colNames_setCol_other _ _ _ _ (mem_colNames_setCol _ _ _)
  refine ⟨rfl, ?_, hisc, ?_, ?_⟩
  · intro dateCol hget hid
    rw [calcReturns_stockAfter, hget, Option.getD_some, hid]
    exact setCol_self_of_getCol stock "Date" dateCol hnodup hget
  · rw [analyzeImpact_insiderAfter]
    exact mem_colNames_setCol _ _ _
  · intro heq
    rw [heq] at hisc
    exact hmissing hisc

/-- Caller's `insider_df` for the mutation witness (one event row). -/
def exWitInsider : DataFrame := [("insider_name", [Cell.str "A"]), ("date", [Cell.int 0])]

/-- Caller's `stock_df` for the mutation witness (one trading day). -/
def exWitStock : DataFrame := [("Date", [Cell.int 0]), ("Close", [Cell.rat 1])]

/-- C1 witness: on concrete one-row frames whose `Date` column is already
datetime (so `to_datetime` is the identity on its cells), the first function
leaves both caller frames unchanged while `analyze_transaction_impact` leaves
the caller's `insider_df` different from its pre-call state. -/
theorem caller_mutation_spec_witness :
    calcReturns_insiderAfter exWitInsider exWitStock = exWitInsider ∧
    calcReturns_stockAfter (fun c => c) exWitInsider exWitStock = exWitStock ∧
    analyzeImpact_insiderAfter (fun _ => none) (fun c => c) exWitInsider ≠ exWitInsider := by
  have h := caller_mutation_spec exWitInsider exWitStock (fun c => c) (fun c => c)
    (fun _ => none) (by decide) (by decide)
  exact ⟨h.1, h.2.1 [Cell.int 0] (by decide) (by decide), h.2.2.2.2⟩

end FinanceGraph
